import Mathlib

/-!
Shallow embedding of `src/generate_calendar.py` (MLB playoff calendar
generator) and verification of the specification claims about it.

Modelling conventions:
* Python strings are Lean `String`s; character-level work is done on
  `List Char`.
* `datetime.now()` is modelled by an explicit reference value `Now`
  (year and month are the only fields the source reads).
* The per-event call `datetime.now(pytz.UTC)` inside the calendar
  builder is modelled by a clock `Nat → Nat`: the k-th wall-clock sample
  of a run returns `clock k` (an abstract UTC instant).
* A fetched/parsed ESPN page is a list of `TableData` (the
  `ScheduleTables` divs); a fetch or parse failure is `Except.error`.
* Python `datetime` values produced by the pipeline are wall-clock
  Eastern-zone instants, represented by `ETDateTime`.
-/

/-- Decidable substring test on character lists; embeds Python `needle in hay`. -/
def hasSub (needle hay : List Char) : Bool := decide (needle <:+: hay)

/-- Digit value of a character (Python `int` on a digit). -/
def dval (c : Char) : Nat := c.toNat - 48

/-- Date produced by `parse_espn_date` (a Python `datetime` at midnight). -/
structure Date where
  year : Nat
  month : Nat
  day : Nat
deriving DecidableEq, Repr

/-- Eastern-zone instant produced by `parse_time` (a localized `datetime`). -/
structure ETDateTime where
  year : Nat
  month : Nat
  day : Nat
  hour : Nat
  minute : Nat
deriving DecidableEq, Repr

/-- Reference value for `datetime.now()`: the fields the source reads. -/
structure Now where
  year : Nat
  month : Nat
deriving DecidableEq, Repr

/-! ## Embedding of parse_time: the regex (\d{1,2}):(\d{2})\s*(AM|PM)\s*ET under re.search -/

/-- Tail of the regex after the AM/PM group: `\s*ET`.  Returns the captured
groups (hour, minute, meridiem letter) on success. -/
def etTail (h m : Nat) (a : Char) (s : List Char) : Option (Nat × Nat × Char) :=
  match s.dropWhile Char.isWhitespace with
  | 'E' :: 'T' :: _ => some (h, m, a)
  | _ => none

/-- Regex tail `\s*(AM|PM)\s*ET` starting right after the minute digits. -/
def ampmTail (h m : Nat) (s : List Char) : Option (Nat × Nat × Char) :=
  match s.dropWhile Char.isWhitespace with
  | 'A' :: 'M' :: rest => etTail h m 'A' rest
  | 'P' :: 'M' :: rest => etTail h m 'P' rest
  | _ => none

/-- Regex tail `(\d{2})\s*(AM|PM)\s*ET` starting right after the colon. -/
def minuteTail (h : Nat) (s : List Char) : Option (Nat × Nat × Char) :=
  match s with
  | m1 :: m2 :: rest =>
    if m1.isDigit && m2.isDigit then ampmTail h (10 * dval m1 + dval m2) rest
    else none
  | _ => none

/-- Attempt the whole pattern anchored at the head of `s`.  The greedy
`\d{1,2}` takes two digits when the colon follows them, else one digit;
two digits not followed by a colon fail (the one-digit backtrack would
need the second digit to be the colon). -/
def matchAt (s : List Char) : Option (Nat × Nat × Char) :=
  match s with
  | c1 :: c2 :: rest2 =>
    if c1.isDigit && c2.isDigit then
      match rest2 with
      | ':' :: rest3 => minuteTail (10 * dval c1 + dval c2) rest3
      | _ => none
    else if c1.isDigit && c2 = ':' then minuteTail (dval c1) rest2
    else none
  | _ => none

/-- Embeds `re.search`: first position (left to right) where the pattern matches. -/
def reSearch : List Char → Option (Nat × Nat × Char)
  | [] => none
  | c :: rest =>
    match matchAt (c :: rest) with
    | some r => some r
    | none => reSearch rest

/-- The 12-hour to 24-hour conversion of `parse_time`. -/
def to24Hour (h : Nat) (a : Char) : Nat :=
  if a = 'P' ∧ h ≠ 12 then h + 12
  else if a = 'A' ∧ h = 12 then 0
  else h

/-- Embeds `parse_time(time_text, game_date)`: TBD/PPD markers yield `none`; then
the regex is searched for; the hour is converted to 24-hour form; the
`datetime.replace(hour=..., minute=...)` raises (caught, yielding `none`)
unless the fields are in range; the result is the date with the clock time,
localized to Eastern (a relabelling, kept implicit). -/
def parse_time (time_text : String) (game_date : Date) : Option ETDateTime :=
  if hasSub ['T', 'B', 'D'] time_text.toList ||
      hasSub ['P', 'P', 'D'] time_text.toList then none
  else
    match reSearch time_text.toList with
    | none => none
    | some (h, m, a) =>
      if to24Hour h a ≤ 23 ∧ m ≤ 59 then
        some ⟨game_date.year, game_date.month, game_date.day, to24Hour h a, m⟩
      else none

/-! ## Embedding of parse_espn_date: strptime over the formats
%B %d, %Y and %A, %B %d and %B %d, after stripping a leading weekday -/

/-- Case-insensitive match of `pat` as a prefix of `s`; returns the rest. -/
def matchCI : List Char → List Char → Option (List Char)
  | [], s => some s
  | _ :: _, [] => none
  | p :: ps, c :: cs => if p.toLower = c.toLower then matchCI ps cs else none

/-- Try each name in turn (strptime compiles the names into one
alternation; no month or weekday name is a prefix of another, so
first-match is unambiguous).  Returns the 0-based index of the name
matched plus `start`, and the remaining input. -/
def pickName (start : Nat) : List String → List Char → Option (Nat × List Char)
  | [], _ => none
  | n :: rest, s =>
    match matchCI n.toList s with
    | some r => some (start, r)
    | none => pickName (start + 1) rest s

def monthNames : List String :=
  ["January", "February", "March", "April", "May", "June",
   "July", "August", "September", "October", "November", "December"]

def weekdayNames : List String :=
  ["Monday", "Tuesday", "Wednesday", "Thursday", "Friday", "Saturday", "Sunday"]

/-- Format directive %B: a full month name, 1-based month number. -/
def parseMonthName (s : List Char) : Option (Nat × List Char) :=
  pickName 1 monthNames s

/-- Format directive %A: a full weekday name (value unused by the source formats). -/
def parseWeekdayName (s : List Char) : Option (List Char) :=
  (pickName 0 weekdayNames s).map (fun r => r.2)

/-- Whitespace in a strptime format: `\s+` (at least one, then all). -/
def ws1 (s : List Char) : Option (List Char) :=
  match s with
  | c :: rest =>
    if c.isWhitespace then some (rest.dropWhile Char.isWhitespace) else none
  | [] => none

/-- Format directive %d: strptime matches `3[01]|[12]\d|0[1-9]|[1-9]` — two digits when
they form 1..31, else a single nonzero digit. -/
def parseDay (s : List Char) : Option (Nat × List Char) :=
  match s with
  | c1 :: c2 :: rest =>
    if c1.isDigit && c2.isDigit then
      let v := 10 * dval c1 + dval c2
      if 1 ≤ v ∧ v ≤ 31 then some (v, rest)
      else if 1 ≤ dval c1 then some (dval c1, c2 :: rest)
      else none
    else if c1.isDigit && 1 ≤ dval c1 then some (dval c1, c2 :: rest)
    else none
  | [c1] => if c1.isDigit && 1 ≤ dval c1 then some (dval c1, []) else none
  | [] => none

/-- Format directive %Y: exactly four digits. -/
def parse4 (s : List Char) : Option (Nat × List Char) :=
  match s with
  | a :: b :: c :: d :: rest =>
    if a.isDigit && b.isDigit && c.isDigit && d.isDigit then
      some (1000 * dval a + 100 * dval b + 10 * dval c + dval d, rest)
    else none
  | _ => none

def isLeap (y : Nat) : Bool :=
  y % 4 = 0 && (y % 100 ≠ 0 || y % 400 = 0)

def daysInMonth (y m : Nat) : Nat :=
  if m = 2 then (if isLeap y then 29 else 28)
  else if m = 4 ∨ m = 6 ∨ m = 9 ∨ m = 11 then 30
  else 31

/-- Embeds strptime with format %B %d, %Y including the validation done by
the datetime constructor (year ≥ 1, day within the month). -/
def tryFmtBdY (s : List Char) : Option Date :=
  (parseMonthName s).bind fun mr =>
  (ws1 mr.2).bind fun r2 =>
  (parseDay r2).bind fun dr =>
  match dr.2 with
  | ',' :: r4 =>
    (ws1 r4).bind fun r5 =>
    (parse4 r5).bind fun yr =>
    if yr.2.isEmpty ∧ 1 ≤ yr.1 ∧ dr.1 ≤ daysInMonth yr.1 mr.1 then
      some ⟨yr.1, mr.1, dr.1⟩
    else none
  | _ => none

/-- Embeds strptime with format %A, %B %d: no year in the input, so the
constructed datetime carries the strptime default year 1900 (so
February 29 is rejected); returns (month, day). -/
def tryFmtABd (s : List Char) : Option (Nat × Nat) :=
  (parseWeekdayName s).bind fun r1 =>
  match r1 with
  | ',' :: r2 =>
    (ws1 r2).bind fun r3 =>
    (parseMonthName r3).bind fun mr =>
    (ws1 mr.2).bind fun r5 =>
    (parseDay r5).bind fun dr =>
    if dr.2.isEmpty ∧ dr.1 ≤ daysInMonth 1900 mr.1 then some (mr.1, dr.1)
    else none
  | _ => none

/-- Embeds strptime with format %B %d, default year 1900; returns (month, day). -/
def tryFmtBd (s : List Char) : Option (Nat × Nat) :=
  (parseMonthName s).bind fun mr =>
  (ws1 mr.2).bind fun r2 =>
  (parseDay r2).bind fun dr =>
  if dr.2.isEmpty ∧ dr.1 ≤ daysInMonth 1900 mr.1 then some (mr.1, dr.1)
  else none

/-- Embeds the substitution re.sub deleting a leading match of the
pattern ^[A-Za-z]+,\s* from the date text. -/
def stripWeekday (s : List Char) : List Char :=
  let letters := s.takeWhile Char.isAlpha
  if letters.isEmpty then s
  else
    match s.drop letters.length with
    | ',' :: rest => rest.dropWhile Char.isWhitespace
    | _ => s

/-- The year substitution of `parse_espn_date` for year-less formats:
`parsed.replace(year=current_year)`, then bump to the next year when the
parsed month is before October while "now" is October or later. -/
def resolveYear (now : Now) (m : Nat) : Nat :=
  if m < 10 ∧ 10 ≤ now.month then now.year + 1 else now.year

/-- Embeds `parse_espn_date(date_text)`: strip a leading weekday, then try
the formats %B %d, %Y then %A, %B %d then %B %d in order; the first two
year-less formats get the year-inference substitution. -/
def parse_espn_date (now : Now) (date_text : String) : Option Date :=
  match tryFmtBdY (stripWeekday date_text.toList) with
  | some d => some d
  | none =>
    match tryFmtABd (stripWeekday date_text.toList) with
    | some md => some ⟨resolveYear now md.1, md.1, md.2⟩
    | none =>
      match tryFmtBd (stripWeekday date_text.toList) with
      | some md => some ⟨resolveYear now md.1, md.1, md.2⟩
      | none => none

/-! ## Embedding of scrape_espn_schedule -/

/-- One `tr.Table__TR` row: the `span.Table__Team` texts and the optional
`td.date__col` text. -/
structure RowData where
  teams : List String
  time_elem : Option String
deriving DecidableEq, Repr

/-- One `div.ScheduleTables` section: the optional `Table__Title` text and
the rows. -/
structure TableData where
  date_header : Option String
  rows : List RowData
deriving DecidableEq, Repr

/-- A game dict appended by `scrape_espn_schedule`. -/
structure GameRec where
  away_team : String
  home_team : String
  datetime : Option ETDateTime
  date_str : String
deriving DecidableEq, Repr

/-- The body of the row loop: needs at least two team spans, a time cell,
and a parseable time; otherwise the row contributes nothing. -/
def processRow (date_text : String) (game_date : Date) (row : RowData) :
    Option GameRec :=
  match row.teams with
  | away :: home :: _ =>
    match row.time_elem with
    | some time_text =>
      match parse_time time_text game_date with
      | some gt => some ⟨away, home, some gt, date_text⟩
      | none => none
    | none => none
  | _ => none

/-- The body of the table loop: a section with no title or an unparseable
date contributes nothing; otherwise its rows are processed in order. -/
def processTable (now : Now) (t : TableData) : List GameRec :=
  match t.date_header with
  | none => []
  | some date_text =>
    match parse_espn_date now date_text with
    | none => []
    | some game_date => t.rows.filterMap (processRow date_text game_date)

/-- Embeds `scrape_espn_schedule()`: a failing fetch (any exception) returns the
empty list; otherwise the sections are processed in page order and the
per-row results concatenated, in order, with no deduplication and no
sorting. -/
def scrape_espn_schedule (now : Now) (page : Except Unit (List TableData)) :
    List GameRec :=
  match page with
  | Except.error _ => []
  | Except.ok tables => tables.flatMap (processTable now)

/-- Identity of a game in the sense of the specification: this variant has
no explicit source identifier, so identity is the composite of the
resolved instant and both team names. -/
def identityKey (g : GameRec) : Option ETDateTime × String × String :=
  (g.datetime, g.away_team, g.home_team)

/-! ## Embedding of create_ical_calendar -/

/-- One `VEVENT`. `dtstamp` is the abstract UTC instant sampled from the
wall clock when the event was created. -/
structure VEvent where
  summary : String
  dtstart : ETDateTime
  dtend : ETDateTime
  description : String
  location : String
  uid : String
  dtstamp : Nat
deriving DecidableEq, Repr

/-- The produced `VCALENDAR`. -/
structure ICal where
  prodid : String
  version : String
  calname : String
  caltz : String
  caldesc : String
  events : List VEvent
deriving DecidableEq, Repr

def pad2 (n : Nat) : String :=
  if n < 10 then "0" ++ toString n else toString n

def pad4 (n : Nat) : String :=
  if n < 10 then "000" ++ toString n
  else if n < 100 then "00" ++ toString n
  else if n < 1000 then "0" ++ toString n
  else toString n

/-- Embeds strftime with format %Y%m%d%H%M. -/
def fmtYmdHM (t : ETDateTime) : String :=
  pad4 t.year ++ pad2 t.month ++ pad2 t.day ++ pad2 t.hour ++ pad2 t.minute

/-- Calendar successor day (used to embed `datetime + timedelta`). -/
def nextDay (t : ETDateTime) : ETDateTime :=
  if t.day < daysInMonth t.year t.month then
    ⟨t.year, t.month, t.day + 1, t.hour, t.minute⟩
  else if t.month < 12 then ⟨t.year, t.month + 1, 1, t.hour, t.minute⟩
  else ⟨t.year + 1, 1, 1, t.hour, t.minute⟩

def addDays : Nat → ETDateTime → ETDateTime
  | 0, t => t
  | n + 1, t => addDays n (nextDay t)

/-- Embeds `t + timedelta(minutes=k)`: Python timedelta addition on an aware
datetime is plain wall-clock calendar arithmetic. -/
def addMinutes (t : ETDateTime) (k : Nat) : ETDateTime :=
  addDays ((t.hour + (t.minute + k) / 60) / 24)
    ⟨t.year, t.month, t.day, (t.hour + (t.minute + k) / 60) % 24,
     (t.minute + k) % 60⟩

/-- The event-construction loop of `create_ical_calendar`.  `n` counts the
wall-clock samples already taken this run: each constructed event calls
`datetime.now(pytz.UTC)` once, for its own `DTSTAMP`. -/
def buildEvents (clock : Nat → Nat) : Nat → List GameRec → List VEvent
  | _, [] => []
  | n, g :: rest =>
    match g.datetime with
    | none => buildEvents clock n rest
    | some t =>
      { summary := g.away_team ++ " @ " ++ g.home_team
        dtstart := t
        dtend := addMinutes t 210
        description := "MLB Playoff Game\n" ++ g.away_team ++ " at " ++ g.home_team
        location := g.home_team ++ " Stadium"
        uid := fmtYmdHM t ++ "-" ++ g.away_team ++ "-" ++ g.home_team ++ "@mlb-playoffs"
        dtstamp := clock n } :: buildEvents clock (n + 1) rest

/-- Embeds `create_ical_calendar(games)`. -/
def create_ical_calendar (clock : Nat → Nat) (games : List GameRec) : ICal :=
  { prodid := "-//MLB Playoff Calendar//EN"
    version := "2.0"
    calname := "MLB Playoffs 2024"
    caltz := "America/New_York"
    caldesc := "MLB Playoff Schedule - Auto-updated daily"
    events := buildEvents clock 0 games }

/-! ## Embedding of main -/

/-- Observable outcome of `main`: the file written (if any) and whether
the no-games message was printed instead. -/
structure RunResult where
  file : Option ICal
  noGamesMessage : Bool
deriving DecidableEq, Repr

/-- Embeds `main()` (renamed: Lean reserves `main` for entry points): scrape; if
any games were found, build and write the calendar, else print the
no-games line and write nothing. -/
def main_run (clock : Nat → Nat) (now : Now) (page : Except Unit (List TableData)) :
    RunResult :=
  let games := scrape_espn_schedule now page
  if games.isEmpty then { file := none, noGamesMessage := true }
  else { file := some (create_ical_calendar clock games), noGamesMessage := false }

/-! ## Keys used to state ordering facts -/

/-- Injective, order-preserving key of a calendar date (months < 13,
days < 32 for all values the pipeline constructs). -/
def dateKey (d : Date) : Nat := (d.year * 13 + d.month) * 32 + d.day

/-- Chronological key of an Eastern instant: date key in units of whole
days, plus minute of day. -/
def tkey (t : ETDateTime) : Nat :=
  dateKey ⟨t.year, t.month, t.day⟩ * 1440 + t.hour * 60 + t.minute

/-- Start key of a scraped game (`0` for a game with no instant; the
scraper never emits one). -/
def gkey (g : GameRec) : Nat :=
  match g.datetime with
  | none => 0
  | some t => tkey t

/-- The date a schedule section resolves to, if any. -/
def tableDate (now : Now) (t : TableData) : Option Date :=
  match t.date_header with
  | none => none
  | some s => parse_espn_date now s

/-- Boolean strict comparison of two optional section dates (vacuously
true when either is missing). -/
def dayLtB : Option Date → Option Date → Bool
  | some a, some b => decide (dateKey a < dateKey b)
  | _, _ => true

/-- The game contributed by one row of one section, if any. -/
def rowGame (now : Now) (t : TableData) (r : RowData) : Option GameRec :=
  match t.date_header with
  | none => none
  | some dt =>
    match parse_espn_date now dt with
    | none => none
    | some d => processRow dt d r

/-! ## Concrete inputs used by witnesses and counterexamples -/

def timeET : String := "7:08 PM ET"
def timeNoET : String := "7:08 PM"
def timeTBD : String := "TBD"
def dateOct14Y : String := "October 14, 2025"
def dateOct15Y : String := "October 15, 2025"
def dateOct14 : String := "October 14"
def dateApr5 : String := "April 5"
def teamTigers : String := "Tigers"
def teamGuardians : String := "Guardians"

/-- A well-formed schedule row: two teams and an Eastern tip-off time. -/
def rowET : RowData := ⟨[teamTigers, teamGuardians], some timeET⟩

/-! ## Helper lemmas about parse_time and the row loop -/

/-- A successful `parse_time` keeps the date fields of `game_date` and
produces an in-range clock time (otherwise `datetime.replace` would have
raised and the function returned `none`). -/
theorem parse_time_some_fields {txt : String} {gd : Date} {t : ETDateTime}
    (h : parse_time txt gd = some t) :
    t.year = gd.year ∧ t.month = gd.month ∧ t.day = gd.day ∧
      t.hour ≤ 23 ∧ t.minute ≤ 59 := by
  unfold parse_time at h
  split at h
  · exact absurd h (by simp)
  · split at h
    · exact absurd h (by simp)
    · next hh mm a _ =>
      split at h
      · next hrange =>
        cases h
        exact ⟨rfl, rfl, rfl, hrange.1, hrange.2⟩
      · exact absurd h (by simp)

/-- A row whose time text does not parse contributes no game. -/
theorem processRow_none {dt : String} {gd : Date} {row : RowData} {txt : String}
    (hel : row.time_elem = some txt) (hpt : parse_time txt gd = none) :
    processRow dt gd row = none := by
  cases hts : row.teams with
  | nil => simp [processRow, hts]
  | cons a rest =>
    cases rest with
    | nil => simp [processRow, hts]
    | cons b rest2 => simp [processRow, hts, hel, hpt]

/-! ## C3 -/

/-- C3 counterexample: with "now" in May 2025 (current month before
October), the year-less text "October 14" resolves to the **current**
year 2025, not to the next year 2026 as the claim demands. -/
theorem c3_counterexample :
    parse_espn_date ⟨2025, 5⟩ dateOct14 = some ⟨2025, 10, 14⟩ ∧
      ¬ parse_espn_date ⟨2025, 5⟩ dateOct14 = some ⟨2026, 10, 14⟩ := by
  constructor
  · decide
  · decide

/-- C3 (amended): for a date text lacking a year (it parses under one of
the year-less formats, not under the explicit-year format), the resolved
year is the current year, except that it is bumped forward by one exactly
when the resolved month is before October while the current month is
October or later.  In particular, when the current month is before
October the current year is used — not the next year. -/
theorem c3_year_inference (now : Now) (text : String) (m d : Nat)
    (h1 : tryFmtBdY (stripWeekday text.toList) = none)
    (h2 : tryFmtABd (stripWeekday text.toList) = some (m, d) ∨
      (tryFmtABd (stripWeekday text.toList) = none ∧
        tryFmtBd (stripWeekday text.toList) = some (m, d))) :
    (10 ≤ now.month → m < 10 →
        parse_espn_date now text = some ⟨now.year + 1, m, d⟩) ∧
      (10 ≤ now.month → ¬ m < 10 →
        parse_espn_date now text = some ⟨now.year, m, d⟩) ∧
      (now.month < 10 → parse_espn_date now text = some ⟨now.year, m, d⟩) := by
  have hres : parse_espn_date now text = some ⟨resolveYear now m, m, d⟩ := by
    unfold parse_espn_date
    rw [h1]
    rcases h2 with h2 | ⟨h2a, h2b⟩
    · rw [h2]
    · rw [h2a, h2b]
  refine ⟨?_, ?_, ?_⟩
  · intro hnow hm
    rw [hres]
    unfold resolveYear
    rw [if_pos ⟨hm, hnow⟩]
  · intro hnow hm
    rw [hres]
    unfold resolveYear
    rw [if_neg (by omega)]
  · intro hnow
    rw [hres]
    unfold resolveYear
    rw [if_neg (by omega)]

/-- C3 witness: "April 5" parsed in October 2025 is bumped to April 2026. -/
theorem c3_witness :
    tryFmtBdY (stripWeekday dateApr5.toList) = none ∧
      parse_espn_date ⟨2025, 10⟩ dateApr5 = some ⟨2026, 4, 5⟩ :=
  ⟨by decide,
    (c3_year_inference ⟨2025, 10⟩ dateApr5 4 5 (by decide)
      (Or.inr ⟨by decide, by decide⟩)).1 (by decide) (by decide)⟩

/-! ## C4 -/

/-- C4: the 12-hour to 24-hour conversion used by `parse_time` maps
hour 12 AM to 0, keeps hour 12 PM at 12, adds 12 to every other PM hour
and keeps every other AM hour unchanged; e.g. "7:08 PM ET" resolves to
19:08 on the given date. -/
theorem c4_hour_conversion (h : Nat) (gd : Date) :
    to24Hour 12 'A' = 0 ∧
      to24Hour 12 'P' = 12 ∧
      (h ≠ 12 → to24Hour h 'P' = h + 12) ∧
      (h ≠ 12 → to24Hour h 'A' = h) ∧
      parse_time timeET gd = some ⟨gd.year, gd.month, gd.day, 19, 8⟩ := by
  refine ⟨by decide, by decide, ?_, ?_, rfl⟩
  · intro hne
    unfold to24Hour
    rw [if_pos ⟨rfl, hne⟩]
  · intro hne
    unfold to24Hour
    rw [if_neg (by simp), if_neg (by simp [hne])]

/-- C4 witness at hour 7 PM. -/
theorem c4_witness : (7 : Nat) ≠ 12 ∧ to24Hour 7 'P' = 7 + 12 :=
  ⟨by decide, (c4_hour_conversion 7 ⟨2025, 10, 14⟩).2.2.1 (by decide)⟩

/-! ## C7 -/

/-- C7: a time text containing a TBD or PPD marker makes `parse_time`
return `none` (no instant, not an error), and the row loop silently
omits any row whose time parses to `none`. -/
theorem c7_tbd_dropped :
    (∀ (text : String) (gd : Date),
        (hasSub ['T', 'B', 'D'] text.toList ||
          hasSub ['P', 'P', 'D'] text.toList) = true →
        parse_time text gd = none) ∧
      (∀ (dt : String) (gd : Date) (row : RowData) (text : String),
        row.time_elem = some text → parse_time text gd = none →
        processRow dt gd row = none) := by
  constructor
  · intro text gd hmark
    unfold parse_time
    rw [if_pos hmark]
  · intro dt gd row text hel hpt
    exact processRow_none hel hpt

/-- C7 witness: the literal text "TBD" yields no instant and its row is
dropped. -/
theorem c7_witness :
    (hasSub ['T', 'B', 'D'] timeTBD.toList ||
        hasSub ['P', 'P', 'D'] timeTBD.toList) = true ∧
      parse_time timeTBD ⟨2025, 10, 14⟩ = none ∧
      processRow dateOct14Y ⟨2025, 10, 14⟩ ⟨[teamTigers, teamGuardians], some timeTBD⟩ = none :=
  ⟨by decide,
    c7_tbd_dropped.1 timeTBD ⟨2025, 10, 14⟩ (by decide),
    c7_tbd_dropped.2 dateOct14Y ⟨2025, 10, 14⟩ ⟨[teamTigers, teamGuardians], some timeTBD⟩
      timeTBD rfl (c7_tbd_dropped.1 timeTBD ⟨2025, 10, 14⟩ (by decide))⟩

/-! ## C8 -/

/-- C8: a failing fetch-and-extract returns the empty list instead of
propagating the error, and a run that collected zero games writes no
output file, reporting the empty state only as a text message. -/
theorem c8_failure_empty :
    (∀ (now : Now) (e : Unit),
        scrape_espn_schedule now (Except.error e) = []) ∧
      (∀ (clock : Nat → Nat) (now : Now) (page : Except Unit (List TableData)),
        scrape_espn_schedule now page = [] →
        (main_run clock now page).file = none ∧
          (main_run clock now page).noGamesMessage = true) := by
  constructor
  · intro now e
    rfl
  · intro clock now page hempty
    unfold main_run
    rw [hempty]
    exact ⟨rfl, rfl⟩

/-- C8 witness: a network error yields zero games, and that run writes
no file and reports the no-games message. -/
theorem c8_witness :
    scrape_espn_schedule ⟨2025, 10⟩ (Except.error ()) = [] ∧
      (main_run (fun _ => 0) ⟨2025, 10⟩ (Except.error ())).file = none ∧
      (main_run (fun _ => 0) ⟨2025, 10⟩ (Except.error ())).noGamesMessage = true :=
  ⟨c8_failure_empty.1 ⟨2025, 10⟩ (),
    c8_failure_empty.2 (fun _ => 0) ⟨2025, 10⟩ (Except.error ()) (by decide)⟩

/-! ## C10 -/

/-- C10: a date text carrying an explicit year (it parses under the
format %B %d, %Y which is tried first) is used verbatim: the result
is exactly the parsed triple, with no year substitution and no bump, and
it does not depend on the current date at all. -/
theorem c10_explicit_year (now now2 : Now) (text : String) (D : Date)
    (h : tryFmtBdY (stripWeekday text.toList) = some D) :
    parse_espn_date now text = some D ∧ parse_espn_date now2 text = some D := by
  constructor
  · unfold parse_espn_date
    rw [h]
  · unfold parse_espn_date
    rw [h]

/-- C10 witness: "October 14, 2025" resolves to 2025-10-14 both in April
2025 and in December 2031. -/
theorem c10_witness :
    tryFmtBdY (stripWeekday dateOct14Y.toList) = some ⟨2025, 10, 14⟩ ∧
      parse_espn_date ⟨2025, 4⟩ dateOct14Y = some ⟨2025, 10, 14⟩ ∧
      parse_espn_date ⟨2031, 12⟩ dateOct14Y = some ⟨2025, 10, 14⟩ :=
  ⟨by decide,
    c10_explicit_year ⟨2025, 4⟩ ⟨2031, 12⟩ dateOct14Y ⟨2025, 10, 14⟩ (by decide)⟩

/-! ## C1 -/

/-- The duplicated input table for C1: one date section containing the
same matchup row twice. -/
def tblDup : TableData := ⟨some dateOct14Y, [rowET, rowET]⟩

/-- The identity both duplicate rows resolve to. -/
def dupKey : Option ETDateTime × String × String :=
  (some ⟨2025, 10, 14, 19, 8⟩, teamTigers, teamGuardians)

/-- C1 counterexample: two input rows with the same identity produce two
games with that identity in the output — not exactly one; nothing is
deduplicated. -/
theorem c1_counterexample :
    ((scrape_espn_schedule ⟨2025, 10⟩ (Except.ok [tblDup])).countP
        (fun g => decide (identityKey g = dupKey))) = 2 ∧
      ¬ ((scrape_espn_schedule ⟨2025, 10⟩ (Except.ok [tblDup])).countP
        (fun g => decide (identityKey g = dupKey))) = 1 := by
  constructor
  · decide
  · decide

/-- Function `processTable` is exactly the per-row map `rowGame`, kept in row
order with no deduplication. -/
theorem filterMap_always_none (l : List RowData) :
    l.filterMap (fun _ => (none : Option GameRec)) = [] := by
  induction l with
  | nil => rfl
  | cons r rs ih => simp only [List.filterMap_cons]; exact ih

theorem processTable_eq_rowGame (now : Now) (t : TableData) :
    processTable now t = t.rows.filterMap (rowGame now t) := by
  unfold processTable rowGame
  cases hh : t.date_header with
  | none => exact (filterMap_always_none t.rows).symm
  | some dt =>
    cases hp : parse_espn_date now dt with
    | none =>
      simp only [hp]
      exact (filterMap_always_none t.rows).symm
    | some d => simp only [hp]

/-- Counting a predicate through `filterMap`. -/
theorem countP_filterMap_game (p : GameRec → Bool) (f : RowData → Option GameRec)
    (l : List RowData) :
    (l.filterMap f).countP p
      = l.countP (fun r => ((f r).map p).getD false) := by
  exact List.countP_filterMap p f l

/-- C1 (amended): the scraper performs no deduplication at all — for any
identity `k`, the number of games with identity `k` in the output equals
the total number of input rows that successfully resolve to a game with
identity `k` (so two duplicate records yield two retained games, in
encounter order, rather than the first occurrence only). -/
theorem c1_no_dedup (now : Now) (tables : List TableData)
    (k : Option ETDateTime × String × String) :
    ((scrape_espn_schedule now (Except.ok tables)).countP
        (fun g => decide (identityKey g = k)))
      = (tables.map (fun t =>
          t.rows.countP (fun r =>
            decide ((rowGame now t r).map identityKey = some k)))).sum := by
  rw [show scrape_espn_schedule now (Except.ok tables)
      = tables.flatMap (processTable now) from rfl]
  induction tables with
  | nil => simp
  | cons t ts ih =>
    rw [List.flatMap_cons, List.countP_append, List.map_cons, List.sum_cons, ih]
    congr 1
    rw [processTable_eq_rowGame, countP_filterMap_game]
    apply List.countP_congr
    intro r _
    cases hr : rowGame now t r with
    | none => simp
    | some g => simp

/-! ## C5 -/

/-- Two games with resolved instants, used to exhibit distinct DTSTAMPs. -/
def gTigers : GameRec :=
  ⟨teamTigers, teamGuardians, some ⟨2025, 10, 14, 19, 8⟩, dateOct14Y⟩

def gPhillies : GameRec :=
  ⟨"Phillies", "Dodgers", some ⟨2025, 10, 14, 20, 8⟩, dateOct14Y⟩

/-- C5 counterexample: `datetime.now(pytz.UTC)` is called once per event
inside the loop, so with a wall clock whose successive samples differ
(sample k returns k) the two events of one run carry different creation
timestamps — they are not all equal to a single run-level timestamp. -/
theorem c5_counterexample :
    ¬ (((create_ical_calendar (fun n => n) [gTigers, gPhillies]).events.map
        VEvent.dtstamp).Pairwise (fun a b => a = b)) := by
  decide

/-- The event loop consumes one clock sample per emitted event, starting
at sample index `n`. -/
theorem buildEvents_map_dtstamp (clock : Nat → Nat) :
    ∀ (games : List GameRec) (n : Nat),
      (buildEvents clock n games).map VEvent.dtstamp
        = (List.range (games.countP (fun g => g.datetime.isSome))).map
            (fun i => clock (n + i))
  | [], n => by simp [buildEvents]
  | g :: rest, n => by
    cases hg : g.datetime with
    | none =>
      have hc : (g :: rest).countP (fun g => g.datetime.isSome)
          = rest.countP (fun g => g.datetime.isSome) :=
        List.countP_cons_of_neg _ _ (by simp [hg])
      rw [hc]
      have hb : buildEvents clock n (g :: rest) = buildEvents clock n rest := by
        simp [buildEvents, hg]
      rw [hb, buildEvents_map_dtstamp clock rest n]
    | some t =>
      have hc : (g :: rest).countP (fun g => g.datetime.isSome)
          = rest.countP (fun g => g.datetime.isSome) + 1 :=
        List.countP_cons_of_pos _ _ (by simp [hg])
      rw [hc]
      have hb : (buildEvents clock n (g :: rest)).map VEvent.dtstamp
          = clock n :: (buildEvents clock (n + 1) rest).map VEvent.dtstamp := by
        simp [buildEvents, hg]
      rw [hb, buildEvents_map_dtstamp clock rest (n + 1)]
      rw [List.range_succ_eq_map, List.map_cons, List.map_map]
      congr 1
      apply List.map_congr_left
      intro i _
      show clock (n + 1 + i) = clock (n + (i + 1))
      rw [Nat.add_assoc, Nat.add_comm 1 i]

/-- C5 (amended): the creation timestamp is re-sampled from the wall
clock for every event: the i-th emitted event of a run carries the i-th
clock sample, one sample per game that has a resolved instant.  All
events agree only when the clock does not advance between samples. -/
theorem c5_dtstamp_per_event (clock : Nat → Nat) (games : List GameRec) :
    (create_ical_calendar clock games).events.map VEvent.dtstamp
      = (List.range (games.countP (fun g => g.datetime.isSome))).map clock := by
  unfold create_ical_calendar
  rw [buildEvents_map_dtstamp clock games 0]
  apply List.map_congr_left
  intro i _
  rw [Nat.zero_add]

/-! ## C6 -/

/-- Every event built by the loop ends exactly 3 hours 30 minutes
(210 minutes) after it starts. -/
theorem buildEvents_dtend (clock : Nat → Nat) :
    ∀ (games : List GameRec) (n : Nat) (e : VEvent),
      e ∈ buildEvents clock n games → e.dtend = addMinutes e.dtstart 210
  | [], _, _, h => by simp [buildEvents] at h
  | g :: rest, n, e, h => by
    cases hg : g.datetime with
    | none =>
      rw [show buildEvents clock n (g :: rest) = buildEvents clock n rest by
        simp [buildEvents, hg]] at h
      exact buildEvents_dtend clock rest n e h
    | some t =>
      rw [show buildEvents clock n (g :: rest)
          = { summary := g.away_team ++ " @ " ++ g.home_team
              dtstart := t
              dtend := addMinutes t 210
              description := "MLB Playoff Game\n" ++ g.away_team ++ " at " ++ g.home_team
              location := g.home_team ++ " Stadium"
              uid := fmtYmdHM t ++ "-" ++ g.away_team ++ "-" ++ g.home_team ++ "@mlb-playoffs"
              dtstamp := clock n } :: buildEvents clock (n + 1) rest by
        simp [buildEvents, hg]] at h
      rcases List.mem_cons.mp h with rfl | h2
      · rfl
      · exact buildEvents_dtend clock rest (n + 1) e h2

/-- C6: every event in the produced calendar has its end instant equal to
its start instant plus exactly 3 hours 30 minutes (the fixed
`timedelta(hours=3, minutes=30)`). -/
theorem c6_event_duration (clock : Nat → Nat) (games : List GameRec) (e : VEvent)
    (he : e ∈ (create_ical_calendar clock games).events) :
    e.dtend = addMinutes e.dtstart 210 := by
  unfold create_ical_calendar at he
  exact buildEvents_dtend clock games 0 e he

/-- The single event built from the Tigers game by a constant clock. -/
def evTigers : VEvent :=
  { summary := teamTigers ++ " @ " ++ teamGuardians
    dtstart := ⟨2025, 10, 14, 19, 8⟩
    dtend := ⟨2025, 10, 14, 22, 38⟩
    description := "MLB Playoff Game\n" ++ teamTigers ++ " at " ++ teamGuardians
    location := teamGuardians ++ " Stadium"
    uid := "202510141908-" ++ teamTigers ++ "-" ++ teamGuardians ++ "@mlb-playoffs"
    dtstamp := 0 }

/-- C6 witness: the concrete 19:08 game yields an event ending at 22:38. -/
theorem c6_witness :
    evTigers ∈ (create_ical_calendar (fun _ => 0) [gTigers]).events ∧
      evTigers.dtend = addMinutes evTigers.dtstart 210 :=
  ⟨by decide, c6_event_duration (fun _ => 0) [gTigers] evTigers (by decide)⟩

/-! ## C2 -/

def tblOct14 : TableData := ⟨some dateOct14Y, [rowET]⟩

def tblOct15 : TableData := ⟨some dateOct15Y, [rowET]⟩

/-- C2 counterexample: the scraper applies no sort — with the October 15
section listed before the October 14 section, the produced game list has
a strictly decreasing pair of start instants. -/
theorem c2_counterexample :
    ¬ (scrape_espn_schedule ⟨2025, 10⟩ (Except.ok [tblOct15, tblOct14])).Pairwise
      (fun a b => gkey a ≤ gkey b) := by
  decide

/-- Every game extracted from one date section carries the resolved date
of that section, with an in-range clock time: its chronological key lies
in the 1440-minute window of the day of the section. -/
theorem processRow_fields {dt : String} {D : Date} {r : RowData} {x : GameRec}
    (h : processRow dt D r = some x) :
    ∃ hh mm, x.datetime = some ⟨D.year, D.month, D.day, hh, mm⟩ ∧
      hh ≤ 23 ∧ mm ≤ 59 := by
  unfold processRow at h
  split at h
  · split at h
    · split at h
      · next gt hpt =>
        obtain ⟨h1, h2, h3, h4, h5⟩ := parse_time_some_fields hpt
        cases h
        obtain ⟨gy, gm, gd2, ghh, gmm⟩ := gt
        refine ⟨ghh, gmm, ?_, h4, h5⟩
        rw [show gy = D.year from h1, show gm = D.month from h2,
          show gd2 = D.day from h3]
      · exact absurd h (by simp)
    · exact absurd h (by simp)
  · exact absurd h (by simp)

theorem mem_processTable_key {now : Now} {t : TableData} {x : GameRec}
    (hx : x ∈ processTable now t) :
    ∃ D, tableDate now t = some D ∧
      dateKey D * 1440 ≤ gkey x ∧ gkey x < dateKey D * 1440 + 1440 := by
  rw [processTable_eq_rowGame] at hx
  obtain ⟨r, hr, hrow⟩ := List.mem_filterMap.mp hx
  unfold rowGame at hrow
  split at hrow
  · exact absurd hrow (by simp)
  · next dt hh =>
    split at hrow
    · exact absurd hrow (by simp)
    · next D hp =>
      have hTD : tableDate now t = some D := by
        unfold tableDate
        rw [hh]
        exact hp
      obtain ⟨hh2, mm, hdt, h23, h59⟩ := processRow_fields hrow
      have hg : gkey x = dateKey D * 1440 + (hh2 * 60 + mm) := by
        unfold gkey
        rw [hdt]
        show tkey ⟨D.year, D.month, D.day, hh2, mm⟩
          = dateKey D * 1440 + (hh2 * 60 + mm)
        unfold tkey
        dsimp only
        rw [show dateKey ⟨D.year, D.month, D.day⟩ = dateKey D from rfl]
        omega
      exact ⟨D, hTD, by omega, by omega⟩

/-- C2 (amended): the scraper emits games in page-encounter order and
never sorts; the start instants are non-decreasing exactly when the page
already presents them that way — if the date sections resolve to strictly
increasing dates and the rows of each section parse to non-decreasing times,
then the output is non-decreasing (ties within a section keep row
order, since the concatenation preserves encounter order). -/
theorem c2_sorted_when_page_ordered (now : Now) (tables : List TableData)
    (hcross : tables.Pairwise (fun t1 t2 =>
      dayLtB (tableDate now t1) (tableDate now t2) = true))
    (hwithin : ∀ t ∈ tables,
      (processTable now t).Pairwise (fun a b => gkey a ≤ gkey b)) :
    (scrape_espn_schedule now (Except.ok tables)).Pairwise
      (fun a b => gkey a ≤ gkey b) := by
  rw [show scrape_espn_schedule now (Except.ok tables)
      = tables.flatMap (processTable now) from rfl]
  rw [List.flatMap_def, List.pairwise_flatten]
  constructor
  · intro l hl
    obtain ⟨t, ht, rfl⟩ := List.mem_map.mp hl
    exact hwithin t ht
  · rw [List.pairwise_map]
    refine hcross.imp ?_
    intro t1 t2 h12 x hx y hy
    obtain ⟨D1, hD1, hx1, hx2⟩ := mem_processTable_key hx
    obtain ⟨D2, hD2, hy1, hy2⟩ := mem_processTable_key hy
    have hlt : dateKey D1 < dateKey D2 := by
      rw [hD1, hD2] at h12
      simpa [dayLtB] using h12
    omega

/-- C2 witness: with the sections in ascending date order the output is
non-decreasing. -/
theorem c2_witness :
    ([tblOct14, tblOct15].Pairwise (fun t1 t2 =>
        dayLtB (tableDate ⟨2025, 10⟩ t1) (tableDate ⟨2025, 10⟩ t2) = true)) ∧
      (∀ t ∈ [tblOct14, tblOct15],
        (processTable ⟨2025, 10⟩ t).Pairwise (fun a b => gkey a ≤ gkey b)) ∧
      (scrape_espn_schedule ⟨2025, 10⟩ (Except.ok [tblOct14, tblOct15])).Pairwise
        (fun a b => gkey a ≤ gkey b) :=
  ⟨by decide, by decide,
    c2_sorted_when_page_ordered ⟨2025, 10⟩ [tblOct14, tblOct15] (by decide) (by decide)⟩

/-! ## C9 -/

theorem dropWhile_decomp (p : Char → Bool) (s : List Char) :
    ∃ pre, s = pre ++ s.dropWhile p := by
  obtain ⟨t, ht⟩ := List.dropWhile_suffix (l := s) p
  exact ⟨t, ht.symm⟩

theorem hasSub_of_parts (x y : Char) (s pre post : List Char)
    (h : s = pre ++ (x :: y :: post)) : hasSub [x, y] s = true := by
  apply decide_eq_true
  exact ⟨pre, post, by rw [h]; simp⟩

theorem etTail_sub {h m : Nat} {a : Char} {s : List Char} {r : Nat × Nat × Char}
    (he : etTail h m a s = some r) :
    ∃ pre post, s = pre ++ ('E' :: 'T' :: post) := by
  unfold etTail at he
  split at he
  · next rest heq =>
    obtain ⟨pre, hpre⟩ := dropWhile_decomp Char.isWhitespace s
    exact ⟨pre, rest, by rw [hpre, heq]⟩
  · exact absurd he (by simp)

theorem ampmTail_sub {h m : Nat} {s : List Char} {r : Nat × Nat × Char}
    (ha : ampmTail h m s = some r) :
    (∃ pre post, s = pre ++ ('E' :: 'T' :: post)) ∧
      ((∃ pre post, s = pre ++ ('A' :: 'M' :: post)) ∨
        (∃ pre post, s = pre ++ ('P' :: 'M' :: post))) := by
  unfold ampmTail at ha
  split at ha
  · next rest heq =>
    obtain ⟨pre0, hpre0⟩ := dropWhile_decomp Char.isWhitespace s
    obtain ⟨pre1, post1, hET⟩ := etTail_sub ha
    constructor
    · exact ⟨pre0 ++ ('A' :: 'M' :: pre1), post1, by
        rw [hpre0, heq, hET]; simp⟩
    · exact Or.inl ⟨pre0, rest, by rw [hpre0, heq]⟩
  · next rest heq =>
    obtain ⟨pre0, hpre0⟩ := dropWhile_decomp Char.isWhitespace s
    obtain ⟨pre1, post1, hET⟩ := etTail_sub ha
    constructor
    · exact ⟨pre0 ++ ('P' :: 'M' :: pre1), post1, by
        rw [hpre0, heq, hET]; simp⟩
    · exact Or.inr ⟨pre0, rest, by rw [hpre0, heq]⟩
  · exact absurd ha (by simp)

theorem minuteTail_sub {h : Nat} {s : List Char} {r : Nat × Nat × Char}
    (hm : minuteTail h s = some r) :
    (∃ pre post, s = pre ++ ('E' :: 'T' :: post)) ∧
      ((∃ pre post, s = pre ++ ('A' :: 'M' :: post)) ∨
        (∃ pre post, s = pre ++ ('P' :: 'M' :: post))) := by
  unfold minuteTail at hm
  split at hm
  · next m1 m2 rest =>
    split at hm
    · obtain ⟨⟨pe, qe, hET⟩, hAP⟩ := ampmTail_sub hm
      refine ⟨⟨m1 :: m2 :: pe, qe, by simp [hET]⟩, ?_⟩
      rcases hAP with ⟨pa, qa, hAM⟩ | ⟨pa, qa, hPM⟩
      · exact Or.inl ⟨m1 :: m2 :: pa, qa, by simp [hAM]⟩
      · exact Or.inr ⟨m1 :: m2 :: pa, qa, by simp [hPM]⟩
    · exact absurd hm (by simp)
  · exact absurd hm (by simp)

theorem matchAt_sub {s : List Char} {r : Nat × Nat × Char}
    (hm : matchAt s = some r) :
    (∃ pre post, s = pre ++ ('E' :: 'T' :: post)) ∧
      ((∃ pre post, s = pre ++ ('A' :: 'M' :: post)) ∨
        (∃ pre post, s = pre ++ ('P' :: 'M' :: post))) := by
  unfold matchAt at hm
  split at hm
  · next c1 c2 rest2 =>
    split at hm
    · split at hm
      · obtain ⟨⟨pe, qe, hET⟩, hAP⟩ := minuteTail_sub hm
        refine ⟨⟨c1 :: c2 :: ':' :: pe, qe, by simp [hET]⟩, ?_⟩
        rcases hAP with ⟨pa, qa, hAM⟩ | ⟨pa, qa, hPM⟩
        · exact Or.inl ⟨c1 :: c2 :: ':' :: pa, qa, by simp [hAM]⟩
        · exact Or.inr ⟨c1 :: c2 :: ':' :: pa, qa, by simp [hPM]⟩
      · exact absurd hm (by simp)
    · split at hm
      · obtain ⟨⟨pe, qe, hET⟩, hAP⟩ := minuteTail_sub hm
        refine ⟨⟨c1 :: c2 :: pe, qe, by simp [hET]⟩, ?_⟩
        rcases hAP with ⟨pa, qa, hAM⟩ | ⟨pa, qa, hPM⟩
        · exact Or.inl ⟨c1 :: c2 :: pa, qa, by simp [hAM]⟩
        · exact Or.inr ⟨c1 :: c2 :: pa, qa, by simp [hPM]⟩
      · exact absurd hm (by simp)
  · exact absurd hm (by simp)

theorem reSearch_sub :
    ∀ {s : List Char} {r : Nat × Nat × Char}, reSearch s = some r →
    (∃ pre post, s = pre ++ ('E' :: 'T' :: post)) ∧
      ((∃ pre post, s = pre ++ ('A' :: 'M' :: post)) ∨
        (∃ pre post, s = pre ++ ('P' :: 'M' :: post)))
  | [], _, h => absurd h (by simp [reSearch])
  | c :: rest, r, h => by
    unfold reSearch at h
    split at h
    · next r0 heq =>
      cases h
      exact matchAt_sub heq
    · obtain ⟨⟨pe, qe, hET⟩, hAP⟩ := reSearch_sub h
      refine ⟨⟨c :: pe, qe, by simp [hET]⟩, ?_⟩
      rcases hAP with ⟨pa, qa, hAM⟩ | ⟨pa, qa, hPM⟩
      · exact Or.inl ⟨c :: pa, qa, by simp [hAM]⟩
      · exact Or.inr ⟨c :: pa, qa, by simp [hPM]⟩

/-- C9: `parse_time` accepts a time text only when the clock pattern with
the trailing `ET` marker occurs in it — every accepted text contains the
substring "ET" and one of "AM"/"PM"; a text where the pattern search
fails yields no instant, and the row loop drops the corresponding row
from the game list. -/
theorem c9_et_required :
    (∀ (text : String) (gd : Date) (t : ETDateTime),
        parse_time text gd = some t →
        hasSub ['E', 'T'] text.toList = true ∧
          (hasSub ['A', 'M'] text.toList = true ∨
            hasSub ['P', 'M'] text.toList = true)) ∧
      (∀ (text : String) (gd : Date),
        reSearch text.toList = none → parse_time text gd = none) ∧
      (∀ (dt : String) (gd : Date) (row : RowData) (text : String),
        row.time_elem = some text → parse_time text gd = none →
        processRow dt gd row = none) := by
  refine ⟨?_, ?_, ?_⟩
  · intro text gd t h
    unfold parse_time at h
    split at h
    · exact absurd h (by simp)
    · split at h
      · exact absurd h (by simp)
      · next hh mm a heq =>
        obtain ⟨⟨pe, qe, hET⟩, hAP⟩ := reSearch_sub heq
        refine ⟨hasSub_of_parts 'E' 'T' text.toList pe qe hET, ?_⟩
        rcases hAP with ⟨pa, qa, hAM⟩ | ⟨pa, qa, hPM⟩
        · exact Or.inl (hasSub_of_parts 'A' 'M' text.toList pa qa hAM)
        · exact Or.inr (hasSub_of_parts 'P' 'M' text.toList pa qa hPM)
  · intro text gd hre
    unfold parse_time
    split
    · rfl
    · rw [hre]
  · intro dt gd row text hel hpt
    exact processRow_none hel hpt

/-- C9 witness: "7:08 PM ET" is accepted and contains the markers, while
"7:08 PM" (no ET) yields no instant and its row is dropped. -/
theorem c9_witness :
    (hasSub ['E', 'T'] timeET.toList = true ∧
        (hasSub ['A', 'M'] timeET.toList = true ∨
          hasSub ['P', 'M'] timeET.toList = true)) ∧
      parse_time timeNoET ⟨2025, 10, 14⟩ = none ∧
      processRow dateOct14Y ⟨2025, 10, 14⟩
        ⟨[teamTigers, teamGuardians], some timeNoET⟩ = none :=
  ⟨c9_et_required.1 timeET ⟨2025, 10, 14⟩ ⟨2025, 10, 14, 19, 8⟩ (by decide),
    c9_et_required.2.1 timeNoET ⟨2025, 10, 14⟩ (by decide),
    c9_et_required.2.2 dateOct14Y ⟨2025, 10, 14⟩
      ⟨[teamTigers, teamGuardians], some timeNoET⟩ timeNoET rfl
      (c9_et_required.2.1 timeNoET ⟨2025, 10, 14⟩ (by decide))⟩
